import Mathlib

/-!
Verification development for `httpcachefs/smart_parquet/utils.py`.

The file shallowly embeds the four functions of the module:
`atomic_write`, `extract_partition_column`, `extract_sql_url`,
`get_url_hash` / `get_query_hash`.  Pure string manipulation is embedded
as functions over `List Char`; the stateful retry loop of `atomic_write`
is embedded as explicit state passing over a two-path filesystem view
(the target path and its staging path are the only paths the function
touches); OS calls that can fail are driven by per-attempt environments
listing which step fails with which error.
-/

/-! ## Python `pathlib` path model

`atomic_write` computes its staging path as `path.with_suffix(".tmp")`.
`PurePath.with_suffix` REPLACES the final suffix of the last component
(the part from the last dot, when that dot is neither the first nor the
last character of the name) rather than appending, so we model the
`suffix` / `with_suffix` pair of `pathlib` exactly. -/

/-- Index of the last `'.'` in a list of characters (Python `str.rfind('.')`),
`none` when absent. -/
def lastDotIdx : List Char → Option Nat
  | [] => none
  | c :: rest =>
    match lastDotIdx rest with
    | some i => some (i + 1)
    | none => if c = '.' then some 0 else none

/-- Python `PurePath.suffix` on a file name: the substring from the last dot,
provided that dot is neither at index 0 nor the final character; `[]`
otherwise. -/
def pySuffix (s : List Char) : List Char :=
  match lastDotIdx s with
  | none => []
  | some i => if 0 < i ∧ i + 1 < s.length then s.drop i else []

/-- The file name with its Python suffix removed (`PurePath.stem` followed by
any earlier dots; equals the name itself when there is no suffix). -/
def pyStem (s : List Char) : List Char :=
  s.take (s.length - (pySuffix s).length)

/-- Python `PurePath.with_suffix`: drop the old suffix (if any) and append the
new one. -/
def pyWithSuffix (name suf : List Char) : List Char :=
  if pySuffix name = [] then name ++ suf
  else name.take (name.length - (pySuffix name).length) ++ suf

/-- The reserved staging suffix `".tmp"` used by `atomic_write`. -/
def tmpSuffix : List Char := ['.', 't', 'm', 'p']

/-- A filesystem path: parent directory components plus a final name. -/
structure FsPath where
  parent : List String
  name : String
deriving DecidableEq, Repr

/-- The staging path computed at `utils.py:97`:
`temp_path = path.with_suffix(".tmp")`. -/
def tempPath (p : FsPath) : FsPath :=
  ⟨p.parent, String.mk (pyWithSuffix p.name.toList tmpSuffix)⟩

/-! ## `atomic_write` model

Errors caught at `utils.py:122` are `OSError` and its subclasses
`PermissionError` / `FileExistsError`; line 141 catches every other
exception.  Both handlers store the error; only an `OSError` whose
message contains one of the two lock phrases is retried, and only while
`attempt < max_retries - 1`. -/

/-- A Python exception as far as `atomic_write` can observe it: whether it is
an `OSError` (including the subclasses named in the `except` clause) and its
`str(e)` message. -/
structure PyError where
  isOSError : Bool
  msg : String
deriving DecidableEq, Repr

/-- Whether `needle` occurs as a contiguous substring of `hay`, starting at the
head (Python `str.startswith` on char lists). -/
def prefAt : List Char → List Char → Bool
  | [], _ => true
  | a :: as, b :: bs => a == b && prefAt as bs
  | _, [] => false

/-- Python's `needle in hay` substring test. -/
def hasSubstr (needle : List Char) : List Char → Bool
  | [] => needle.isEmpty
  | c :: rest => prefAt needle (c :: rest) || hasSubstr needle rest

/-- The lock classification at `utils.py:125`: an `OSError` whose message
contains "being used by another process" or "Permission denied". -/
def isLockError (e : PyError) : Bool :=
  e.isOSError &&
    (hasSubstr ("being used by another process").toList e.msg.toList ||
     hasSubstr ("Permission denied").toList e.msg.toList)

/-- Contents of the only two paths `atomic_write` touches: the target path and
its staging (`.tmp`) path.  `none` means the file does not exist. -/
structure WriteState where
  target : Option String
  temp : Option String
deriving DecidableEq, Repr

/-- What the operating system does during one attempt: each fallible step
either succeeds (`none`) or raises the given error.  `writeFailTemp` is the
contents the staging file is left with when the write step fails midway. -/
structure AttemptEnv where
  mkdirResult : Option PyError
  unlinkResult : Option PyError
  writeResult : Option PyError
  writeFailTemp : Option String
  replaceResult : Option PyError
deriving DecidableEq, Repr

/-- The stale-staging-file cleanup at `utils.py:107`: if the staging file
exists, try to unlink it; an `OSError` from the unlink is swallowed
(`except OSError: pass`), any other error escapes to the attempt's handler. -/
def cleanupStale (env : AttemptEnv) (st : WriteState) : WriteState × Option PyError :=
  if st.temp.isSome then
    match env.unlinkResult with
    | some e => if e.isOSError then (st, none) else (st, some e)
    | none => ({ st with temp := none }, none)
  else (st, none)

/-- One iteration of the `try` block at `utils.py:102`: mkdir the parent,
clean up a stale staging file, write the payload to the staging path, then
atomically rename the staging path onto the target.  Returns the new
filesystem state and the error raised by the attempt, if any.  The rename is
the only step that changes the target path, and on failure it leaves the
target untouched (the OS-level atomicity the code relies on). -/
def runAttempt (env : AttemptEnv) (content : String) (st : WriteState) :
    WriteState × Option PyError :=
  match env.mkdirResult with
  | some e => (st, some e)
  | none =>
    match cleanupStale env st with
    | (st1, some e) => (st1, some e)
    | (st1, none) =>
      match env.writeResult with
      | some e => ({ st1 with temp := env.writeFailTemp }, some e)
      | none =>
        match env.replaceResult with
        | some e => ({ st1 with temp := some content }, some e)
        | none => ({ target := some content, temp := none }, none)

/-- Result of the retry loop at `utils.py:101`. -/
structure LoopOut where
  fs : WriteState
  success : Bool
  lastError : Option PyError
  sleepsMs : List Nat
  errors : List PyError
  attemptsMade : Nat
deriving DecidableEq, Repr

/-- The loop `for attempt in range(max_retries)` of `utils.py:101-144`:
run an attempt; on success return; on a lock-classified error with attempts
remaining sleep `(2 ** attempt) * 0.01` seconds (recorded in milliseconds)
and continue; otherwise break with the error recorded as `last_error`. -/
def awLoop (envs : Nat → AttemptEnv) (content : String) (maxRetries : Nat) :
    Nat → Nat → WriteState → Option PyError → List Nat → List PyError → Nat → LoopOut
  | 0, _, st, le, sl, er, md => ⟨st, false, le, sl, er, md⟩
  | fuel + 1, attempt, st, le, sl, er, md =>
    match runAttempt (envs attempt) content st with
    | (st1, none) => ⟨st1, true, le, sl, er, md + 1⟩
    | (st1, some e) =>
      if isLockError e ∧ attempt < maxRetries - 1 then
        awLoop envs content maxRetries fuel (attempt + 1) st1 (some e)
          (sl ++ [10 * 2 ^ attempt]) (er ++ [e]) (md + 1)
      else ⟨st1, false, some e, sl, er ++ [e], md + 1⟩

/-- What `atomic_write` raises: the stored `last_error`, or a bare
`RuntimeError` when the loop never ran. -/
inductive Raised where
  | pyErr (e : PyError)
  | runtimeError
deriving DecidableEq, Repr

/-- Either a normal return or a raised exception. -/
inductive Outcome where
  | ok
  | raised (r : Raised)
deriving DecidableEq, Repr

/-- Everything observable about one `atomic_write` call. -/
structure WriteObs where
  fs : WriteState
  outcome : Outcome
  sleepsMs : List Nat
  errors : List PyError
  attemptsMade : Nat
deriving DecidableEq, Repr

/-- `atomic_write(path, content, max_retries)` at `utils.py:85-154`: run the
retry loop; on success return.  Otherwise (`utils.py:146-154`) best-effort
delete the leftover staging file — `cleanupUnlinkFails` says whether that
unlink raises an `OSError`, which is swallowed — then raise `last_error`,
or `RuntimeError` when it is unset. -/
def atomic_write (envs : Nat → AttemptEnv) (content : String) (maxRetries : Nat)
    (st0 : WriteState) (cleanupUnlinkFails : Bool) : WriteObs :=
  let r := awLoop envs content maxRetries maxRetries 0 st0 none [] [] 0
  if r.success then ⟨r.fs, .ok, r.sleepsMs, r.errors, r.attemptsMade⟩
  else
    let fs1 := if r.fs.temp.isSome && !cleanupUnlinkFails then { r.fs with temp := none } else r.fs
    match r.lastError with
    | some e => ⟨fs1, .raised (.pyErr e), r.sleepsMs, r.errors, r.attemptsMade⟩
    | none => ⟨fs1, .raised .runtimeError, r.sleepsMs, r.errors, r.attemptsMade⟩

/-! ## Key derivation: `get_url_hash` / `get_query_hash`

Both functions are `hashlib.sha256(text.encode()).hexdigest()`; we embed
UTF-8 encoding and SHA-256 (FIPS 180-4) over `Nat` bytes and words, with
explicit `% 2 ^ 32` wherever 32-bit overflow matters. -/

/-- UTF-8 encoding of one code point (Python `str.encode()`), as byte values. -/
def utf8EncodeChar (c : Char) : List Nat :=
  let n := c.toNat
  if n < 0x80 then [n]
  else if n < 0x800 then [0xC0 + n / 0x40, 0x80 + n % 0x40]
  else if n < 0x10000 then
    [0xE0 + n / 0x1000, 0x80 + n / 0x40 % 0x40, 0x80 + n % 0x40]
  else
    [0xF0 + n / 0x40000, 0x80 + n / 0x1000 % 0x40, 0x80 + n / 0x40 % 0x40, 0x80 + n % 0x40]

/-- UTF-8 encoding of a string as byte values. -/
def utf8Encode (s : String) : List Nat :=
  s.toList.flatMap utf8EncodeChar

/-- Right rotation of a 32-bit word. -/
def rotr32 (n x : Nat) : Nat :=
  ((x >>> n) ||| (x <<< (32 - n))) % 2 ^ 32

/-- Bitwise complement within 32 bits. -/
def wnot (x : Nat) : Nat := x ^^^ (2 ^ 32 - 1)

/-- SHA-256 `Ch` function. -/
def chF (x y z : Nat) : Nat := (x &&& y) ^^^ (wnot x &&& z)

/-- SHA-256 `Maj` function. -/
def majF (x y z : Nat) : Nat := (x &&& y) ^^^ (x &&& z) ^^^ (y &&& z)

/-- SHA-256 big sigma 0. -/
def bsig0 (x : Nat) : Nat := rotr32 2 x ^^^ rotr32 13 x ^^^ rotr32 22 x

/-- SHA-256 big sigma 1. -/
def bsig1 (x : Nat) : Nat := rotr32 6 x ^^^ rotr32 11 x ^^^ rotr32 25 x

/-- SHA-256 small sigma 0. -/
def ssig0 (x : Nat) : Nat := rotr32 7 x ^^^ rotr32 18 x ^^^ (x >>> 3)

/-- SHA-256 small sigma 1. -/
def ssig1 (x : Nat) : Nat := rotr32 17 x ^^^ rotr32 19 x ^^^ (x >>> 10)

/-- The 64 SHA-256 round constants. -/
def shaK : List Nat :=
  [1116352408, 1899447441, 3049323471, 3921009573, 961987163, 1508970993,
   2453635748, 2870763221, 3624381080, 310598401, 607225278, 1426881987,
   1925078388, 2162078206, 2614888103, 3248222580, 3835390401, 4022224774,
   264347078, 604807628, 770255983, 1249150122, 1555081692, 1996064986,
   2554220882, 2821834349, 2952996808, 3210313671, 3336571891, 3584528711,
   113926993, 338241895, 666307205, 773529912, 1294757372, 1396182291,
   1695183700, 1986661051, 2177026350, 2456956037, 2730485921, 2820302411,
   3259730800, 3345764771, 3516065817, 3600352804, 4094571909, 275423344,
   430227734, 506948616, 659060556, 883997877, 958139571, 1322822218,
   1537002063, 1747873779, 1955562222, 2024104815, 2227730452, 2361852424,
   2428436474, 2756734187, 3204031479, 3329325298]

/-- The eight working words of the SHA-256 state. -/
structure Sha8 where
  a : Nat
  b : Nat
  c : Nat
  d : Nat
  e : Nat
  f : Nat
  g : Nat
  h : Nat
deriving DecidableEq, Repr

/-- The SHA-256 initial hash value. -/
def initH : Sha8 :=
  ⟨1779033703, 3144134277, 1013904242, 2773480762, 1359893119, 2600822924, 528734635, 1541459225⟩

/-- One SHA-256 compression round, fed a `(constant, scheduled word)` pair. -/
def shaRound (st : Sha8) (kw : Nat × Nat) : Sha8 :=
  let t1 := (st.h + bsig1 st.e + chF st.e st.f st.g + kw.1 + kw.2) % 2 ^ 32
  let t2 := (bsig0 st.a + majF st.a st.b st.c) % 2 ^ 32
  ⟨(t1 + t2) % 2 ^ 32, st.a, st.b, st.c, (st.d + t1) % 2 ^ 32, st.e, st.f, st.g⟩

/-- Extend the 16 block words to the 64-word message schedule (`fuel` counts
the words still to produce). -/
def buildW : Nat → List Nat → List Nat
  | 0, ws => ws
  | fuel + 1, ws =>
    let n := ws.length
    let w := (ssig1 (ws.getD (n - 2) 0) + ws.getD (n - 7) 0 +
              ssig0 (ws.getD (n - 15) 0) + ws.getD (n - 16) 0) % 2 ^ 32
    buildW fuel (ws ++ [w])

/-- Compress one 16-word block into the running state. -/
def processBlock (st : Sha8) (block : List Nat) : Sha8 :=
  let w := buildW 48 block
  let r := (shaK.zip w).foldl shaRound st
  ⟨(st.a + r.a) % 2 ^ 32, (st.b + r.b) % 2 ^ 32, (st.c + r.c) % 2 ^ 32,
   (st.d + r.d) % 2 ^ 32, (st.e + r.e) % 2 ^ 32, (st.f + r.f) % 2 ^ 32,
   (st.g + r.g) % 2 ^ 32, (st.h + r.h) % 2 ^ 32⟩

/-- Big-endian 4-byte groups to 32-bit words. -/
def bytesToWords : List Nat → List Nat
  | b0 :: b1 :: b2 :: b3 :: rest =>
    (b0 * 2 ^ 24 + b1 * 2 ^ 16 + b2 * 2 ^ 8 + b3) :: bytesToWords rest
  | _ => []

/-- The 8-byte big-endian encoding of the message bit length. -/
def lenBytes64 (n : Nat) : List Nat :=
  [n / 2 ^ 56 % 256, n / 2 ^ 48 % 256, n / 2 ^ 40 % 256, n / 2 ^ 32 % 256,
   n / 2 ^ 24 % 256, n / 2 ^ 16 % 256, n / 2 ^ 8 % 256, n % 256]

/-- SHA-256 padding: a `0x80` byte, zeros to 56 mod 64, then the bit length. -/
def shaPad (msg : List Nat) : List Nat :=
  msg ++ 0x80 :: (List.replicate ((119 - msg.length % 64) % 64) 0 ++ lenBytes64 (8 * msg.length))

/-- Split the padded word list into 16-word blocks (`fuel` bounds recursion;
callers pass a value at least the list length). -/
def chunk16F : Nat → List Nat → List (List Nat)
  | 0, _ => []
  | fuel + 1, l => if l.isEmpty then [] else l.take 16 :: chunk16F fuel (l.drop 16)

/-- The SHA-256 state after absorbing a whole byte message. -/
def sha256words (msg : List Nat) : Sha8 :=
  let padded := shaPad msg
  (chunk16F padded.length (bytesToWords padded)).foldl processBlock initH

/-- The sixteen lowercase hex digits, digits `0`-`9` then letters `a`-`f`
(code points 48-57 and 97-102). -/
def hexDigits : List Char :=
  (List.range 16).map (fun n => if n < 10 then Char.ofNat (48 + n) else Char.ofNat (87 + n))

/-- One lowercase hex digit from the low four bits of `n`: code point `48 + m`
for `m < 10`, `87 + m` (so `a`-`f`) otherwise. -/
def hexChar (n : Nat) : Char :=
  if n % 16 < 10 then Char.ofNat (48 + n % 16) else Char.ofNat (87 + n % 16)

/-- The eight hex characters of one 32-bit word, most significant first. -/
def wordHex (w : Nat) : List Char :=
  [hexChar (w / 2 ^ 28), hexChar (w / 2 ^ 24), hexChar (w / 2 ^ 20), hexChar (w / 2 ^ 16),
   hexChar (w / 2 ^ 12), hexChar (w / 2 ^ 8), hexChar (w / 2 ^ 4), hexChar w]

/-- The 64 characters of the SHA-256 hex digest. -/
def shaDigestChars (s : Sha8) : List Char :=
  wordHex s.a ++ wordHex s.b ++ wordHex s.c ++ wordHex s.d ++
  wordHex s.e ++ wordHex s.f ++ wordHex s.g ++ wordHex s.h

/-- `hashlib.sha256(bytes).hexdigest()`. -/
def sha256hex (msg : List Nat) : String :=
  String.mk (shaDigestChars (sha256words msg))

/-- `get_url_hash` at `utils.py:12-22`. -/
def get_url_hash (url : String) : String :=
  sha256hex (utf8Encode url)

/-- The single-quote character, written by code point to keep source scanning
simple. -/
def sqChar : Char := Char.ofNat 39

/-- Python `repr` of a string as used inside `str(columns)`: single quotes
unless the string contains a single quote and no double quote, with
backslashes and the chosen quote escaped (escapes of non-printable
characters are not modelled). -/
def pyReprStr (s : String) : String :=
  let q := if s.toList.contains sqChar && !(s.toList.contains '"') then '"' else sqChar
  let body := s.toList.flatMap (fun c =>
    if c = '\\' then ['\\', '\\'] else if c = q then ['\\', c] else [c])
  String.mk (q :: (body ++ [q]))

/-- Python `str(columns)` for `columns: Optional[List[str]]`. -/
def pyStrOptList : Option (List String) → String
  | none => "None"
  | some l => "[" ++ String.intercalate ", " (l.map pyReprStr) ++ "]"

/-- `get_query_hash` at `utils.py:24-36`: hash of `f"{key}|{str(columns)}"`. -/
def get_query_hash (key : String) (columns : Option (List String)) : String :=
  sha256hex (utf8Encode (key ++ "|" ++ pyStrOptList columns))

/-! ## `extract_partition_column`

The function parses the SQL with the external `sqlglot` library and then
scans the parse tree.  The tree shape and the order of sqlglot's `walk`
are modelled here: `find` and `find_all` default to `bfs=True`, a
deque-based breadth-first traversal that yields the node itself, then
its children level by level, iterating each node's arguments in order.
The parser itself is external to the repository, so
`extract_partition_column` takes it as a parameter
`parse : String → Except String SqlExpr` (a parse failure is an
exception, which the source catches at `utils.py:82`). -/

/-- A sqlglot expression node, restricted to the constructors the scan at
`utils.py:56-80` distinguishes.  `column` stores the unqualified column name
(its `name` property) plus the optional table qualifier. -/
inductive SqlExpr where
  | star
  | lit (v : String)
  | column (name : String) (tbl : Option String)
  | table (name : String)
  | func (name : String) (args : List SqlExpr)
  | eq (l r : SqlExpr)
  | inExpr (subj : SqlExpr) (vals : List SqlExpr)
  | and_ (l r : SqlExpr)
  | where_ (cond : SqlExpr)
  | select (projs : List SqlExpr) (src : Option SqlExpr) (whereCl : Option SqlExpr)

mutual
/-- All nodes of a subtree in depth-first preorder, each paired with its
depth below the root; children are visited in argument order. -/
def dfsDepth : Nat → SqlExpr → List (Nat × SqlExpr)
  | d, .star => [(d, .star)]
  | d, .lit v => [(d, .lit v)]
  | d, .column n t => [(d, .column n t)]
  | d, .table n => [(d, .table n)]
  | d, .func n args => (d, .func n args) :: dfsDepthList (d + 1) args
  | d, .eq l r => (d, .eq l r) :: (dfsDepth (d + 1) l ++ dfsDepth (d + 1) r)
  | d, .inExpr s vs => (d, .inExpr s vs) :: (dfsDepth (d + 1) s ++ dfsDepthList (d + 1) vs)
  | d, .and_ l r => (d, .and_ l r) :: (dfsDepth (d + 1) l ++ dfsDepth (d + 1) r)
  | d, .where_ c => (d, .where_ c) :: dfsDepth (d + 1) c
  | d, .select ps src w =>
    (d, .select ps src w) :: (dfsDepthList (d + 1) ps ++ dfsDepthOpt (d + 1) src ++
      dfsDepthOpt (d + 1) w)

/-- `dfsDepth` over a child list, left to right. -/
def dfsDepthList : Nat → List SqlExpr → List (Nat × SqlExpr)
  | _, [] => []
  | d, e :: es => dfsDepth d e ++ dfsDepthList d es

/-- `dfsDepth` over an optional child. -/
def dfsDepthOpt : Nat → Option SqlExpr → List (Nat × SqlExpr)
  | _, none => []
  | d, some e => dfsDepth d e
end

/-- sqlglot `walk` with its default `bfs=True`: nodes in breadth-first order —
by increasing depth, and left to right within one depth.  The deque-based
walk yields each level's nodes in the left-to-right order of their parents,
which is exactly the depth-first order restricted to that level, so grouping
the preorder listing by depth reproduces it. -/
def bfsList (e : SqlExpr) : List SqlExpr :=
  let nodes := dfsDepth 0 e
  let maxd := (nodes.map (fun p => p.1)).foldr max 0
  (List.range (maxd + 1)).flatMap (fun d => (nodes.filter (fun p => p.1 == d)).map (fun p => p.2))

/-- Recognizer for `exp.Where` nodes (`parsed.find(exp.Where)`). -/
def isWhereB : SqlExpr → Bool
  | .where_ _ => true
  | _ => false

/-- Recognizer for `exp.EQ` / `exp.In` nodes
(`where.find_all((exp.EQ, exp.In))`). -/
def isEqInB : SqlExpr → Bool
  | .eq _ _ => true
  | .inExpr _ _ => true
  | _ => false

/-- The body of the loop at `utils.py:64-78`: for an `EQ` whose left side is a
`Column`, or an `In` whose subject is a `Column`, the unqualified column name;
otherwise nothing (the predicate is skipped). -/
def subjectColumn : SqlExpr → Option String
  | .eq l _ =>
    match l with
    | .column n _ => some n
    | _ => none
  | .inExpr s _ =>
    match s with
    | .column n _ => some n
    | _ => none
  | _ => none

/-- The `for condition in where.find_all(...)` loop: return the first
condition whose subject is a column. -/
def loopConditions : List SqlExpr → Option String
  | [] => none
  | c :: rest =>
    match subjectColumn c with
    | some n => some n
    | none => loopConditions rest

/-- `extract_partition_column` after a successful parse: locate the first
`Where` node in breadth-first walk order, then scan the `EQ` / `In` nodes of
its subtree in breadth-first order. -/
def extract_partition_column_parsed (parsed : SqlExpr) : Option String :=
  match (bfsList parsed).find? isWhereB with
  | none => none
  | some w => loopConditions ((bfsList w).filter isEqInB)

/-- `extract_partition_column` at `utils.py:38-83`: any parse failure is
caught and normalized to `none`. -/
def extract_partition_column (parse : String → Except String SqlExpr) (sql : String) :
    Option String :=
  match parse sql with
  | .error _ => none
  | .ok parsed => extract_partition_column_parsed parsed

/-! ## `extract_sql_url`

`re.search(r"FROM\s+'([^']+)'", sql, re.IGNORECASE | re.DOTALL)`: the
leftmost position where `FROM` (ASCII case-insensitive) is followed by
one or more whitespace characters and a nonempty single-quoted literal.
`\s` is modelled by the exact Unicode whitespace set CPython matches for
text patterns; `DOTALL` only affects `.`, which does not occur in the
pattern.  At a fixed start position the
match is unique: the greedy `\s+` must stop exactly at the quote and the
greedy `[^']+` must stop exactly at the next quote. -/

/-- Python regex `\s` for text patterns: the exact set CPython matches, i.e.
code points 9-13, 28-32, 0x85, 0xA0, 0x1680, 0x2000-0x200A, 0x2028, 0x2029,
0x202F, 0x205F and 0x3000 (checked against `re` over every code point). -/
def isPySpace (c : Char) : Bool :=
  decide ((9 ≤ c.toNat ∧ c.toNat ≤ 13) ∨ (28 ≤ c.toNat ∧ c.toNat ≤ 32) ∨ c.toNat = 133 ∨
    c.toNat = 160 ∨ c.toNat = 5760 ∨ (8192 ≤ c.toNat ∧ c.toNat ≤ 8202) ∨ c.toNat = 8232 ∨
    c.toNat = 8233 ∨ c.toNat = 8239 ∨ c.toNat = 8287 ∨ c.toNat = 12288)

/-- Match `\s+'([^']+)'` against the text following `FROM`, returning the
literal's contents. -/
def matchQuoted (r2 : List Char) : Option (List Char) :=
  let content := r2.takeWhile (fun c => !(c == sqChar))
  let r3 := r2.dropWhile (fun c => !(c == sqChar))
  if content.isEmpty then none
  else
    match r3 with
    | c :: _ => if c == sqChar then some content else none
    | [] => none

/-- Match `\s+'` then the quoted literal. -/
def matchAfterFrom (rest : List Char) : Option (List Char) :=
  let ws := rest.takeWhile isPySpace
  let afterWs := rest.dropWhile isPySpace
  if ws.isEmpty then none
  else
    match afterWs with
    | c :: r2 => if c == sqChar then matchQuoted r2 else none
    | [] => none

/-- Try the whole pattern anchored at the head of `cs`. -/
def tryMatchAt : List Char → Option (List Char)
  | c1 :: c2 :: c3 :: c4 :: rest =>
    if (c1 == 'F' || c1 == 'f') && (c2 == 'R' || c2 == 'r') &&
       (c3 == 'O' || c3 == 'o') && (c4 == 'M' || c4 == 'm') then
      matchAfterFrom rest
    else none
  | _ => none

/-- `re.search`: try every start position left to right, first success wins. -/
def searchFrom : List Char → Option (List Char)
  | [] => none
  | c :: rest =>
    match tryMatchAt (c :: rest) with
    | some r => some r
    | none => searchFrom rest

/-- `extract_sql_url` at `utils.py:156-175`: the first match's group 1, else
`None`. -/
def extract_sql_url (sql : String) : Option String :=
  match searchFrom sql.toList with
  | some content => some (String.mk content)
  | none => none

/-! ## Concrete inputs used by the claim theorems -/

/-- Target `cache/a.parquet`. -/
def pParquet : FsPath := ⟨["cache"], "a.parquet"⟩

/-- Target `cache/a.json`, distinct from `pParquet`. -/
def pJson : FsPath := ⟨["cache"], "a.json"⟩

/-- Target literally named `cache/a.tmp`. -/
def pTmpTarget : FsPath := ⟨["cache"], "a.tmp"⟩

/-- Target `cache/b.parquet`. -/
def pB : FsPath := ⟨["cache"], "b.parquet"⟩

/-- An attempt during which every OS step succeeds. -/
def okEnv : AttemptEnv := ⟨none, none, none, none, none⟩

/-- An `OSError` whose text matches the transient-lock classification. -/
def lockErr : PyError := ⟨true, "Permission denied"⟩

/-- An `OSError` that is not lock-classified. -/
def diskFullErr : PyError := ⟨true, "No space left on device"⟩

/-- An attempt whose `mkdir` raises the lock-classified error. -/
def mkdirLockEnv : AttemptEnv := ⟨some lockErr, none, none, none, none⟩

/-- `mkdir` fails with a lock-classified error on the first attempt only. -/
def c2envs : Nat → AttemptEnv := fun i => if i = 0 then mkdirLockEnv else okEnv

/-- Every attempt fails writing the staging file with the lock error. -/
def lockWriteEnv : AttemptEnv := ⟨none, none, some lockErr, none, none⟩

/-- Every attempt fails writing the staging file with a non-lock error. -/
def diskFullEnv : AttemptEnv := ⟨none, none, some diskFullErr, none, none⟩

/-- Initial filesystem: neither target nor staging file exists. -/
def st0Empty : WriteState := ⟨none, none⟩

/-- Initial filesystem: the target holds `"old"`. -/
def stOld : WriteState := ⟨some "old", none⟩

/-- Parse tree of `SELECT * FROM t WHERE t.id = 1 AND status = 2`. -/
def exampleQualifiedAnd : SqlExpr :=
  .select [.star] (some (.table "t"))
    (some (.where_ (.and_ (.eq (.column "id" (some "t")) (.lit "1"))
                          (.eq (.column "status" none) (.lit "2")))))

/-- Parse tree of a SELECT with no WHERE clause. -/
def exampleNoWhere : SqlExpr := .select [.star] (some (.table "t")) none

/-- Parse tree of `SELECT * FROM t WHERE LOWER(name) = 'x'`: the equality's
subject is a function call, not a column. -/
def exampleFuncSubject : SqlExpr :=
  .select [.star] (some (.table "t"))
    (some (.where_ (.eq (.func "LOWER" [.column "name" none]) (.lit "x"))))

/-- Parse tree of `SELECT * FROM t WHERE id IN (1, 2, 3)`. -/
def exampleInList : SqlExpr :=
  .select [.star] (some (.table "t"))
    (some (.where_ (.inExpr (.column "id" none) [.lit "1", .lit "2", .lit "3"])))

/-- Parse tree of `SELECT * FROM t WHERE a = 1 AND b = 2 AND c = 3`: `AND`
parses left-associatively, so the last conjunct's equality is the shallowest
predicate. -/
def exampleChainAnd : SqlExpr :=
  .select [.star] (some (.table "t"))
    (some (.where_ (.and_ (.and_ (.eq (.column "a" none) (.lit "1"))
                                 (.eq (.column "b" none) (.lit "2")))
                          (.eq (.column "c" none) (.lit "3")))))

/-- The query text `SELECT * FROM t WHERE a = 1 AND b = 2 AND c = 3`. -/
def chainSql : String := "SELECT * FROM t WHERE a = 1 AND b = 2 AND c = 3"

/-- The query text `SELECT * FROM t WHERE t.id = 1 AND status = 2`. -/
def exSqlQualifiedAnd : String := "SELECT * FROM t WHERE t.id = 1 AND status = 2"

/-- The malformed query of the spec's test list. -/
def malformedSql : String := "SELEC * FRM"

/-- `SELECT * FROM 'https://example.com/file.parquet' WHERE k = 1`. -/
def exUrlBasic : String :=
  String.mk (("SELECT * FROM ").toList ++ sqChar ::
    (("https://example.com/file.parquet").toList ++ sqChar :: (" WHERE k = 1").toList))

/-- `FROM` followed by a newline, indentation and `'https://x/y.parquet'`. -/
def exUrlNewline : String :=
  String.mk (("FROM\n    ").toList ++ sqChar :: (("https://x/y.parquet").toList ++ [sqChar]))

/-- Two quoted FROM clauses: `SELECT * FROM 'a' JOIN FROM 'b'`. -/
def exUrlTwoFrom : String :=
  String.mk (("SELECT * FROM ").toList ++ sqChar :: 'a' :: sqChar ::
    ((" JOIN FROM ").toList ++ sqChar :: 'b' :: [sqChar]))

/-- `tblFROM 'u'`: the characters `FROM` end a longer identifier. -/
def exUrlTailWord : String :=
  String.mk (("tblFROM ").toList ++ sqChar :: 'u' :: [sqChar])

/-- `FROM 'u'`. -/
def exFromBasic : String :=
  String.mk (("FROM ").toList ++ sqChar :: 'u' :: [sqChar])

/-- `FROM` followed by a no-break space (U+00A0) and `'u'`: Python `\s`
matches the no-break space. -/
def exUrlNbsp : String :=
  String.mk (("FROM").toList ++ Char.ofNat 160 :: sqChar :: 'u' :: [sqChar])

/-- ASCII case-insensitive match of the four literal pattern letters. -/
def fromCI (c1 c2 c3 c4 : Char) : Prop :=
  (c1 = 'F' ∨ c1 = 'f') ∧ (c2 = 'R' ∨ c2 = 'r') ∧ (c3 = 'O' ∨ c3 = 'o') ∧ (c4 = 'M' ∨ c4 = 'm')

/-- The spec's description of one pattern occurrence: `FROM` (case-insensitive)
then one or more whitespace characters, then a nonempty single-quoted literal
whose contents are returned verbatim. -/
def fromPatternDecomp (cs content : List Char) : Prop :=
  ∃ c1 c2 c3 c4 ws tail,
    cs = c1 :: c2 :: c3 :: c4 :: (ws ++ sqChar :: (content ++ sqChar :: tail)) ∧
    fromCI c1 c2 c3 c4 ∧ ws ≠ [] ∧ (∀ c ∈ ws, isPySpace c = true) ∧
    content ≠ [] ∧ ∀ c ∈ content, c ≠ sqChar

/-- The backoff sleeps (in milliseconds) a run of the loop performs when every
attempt fails with a lock-classified error, starting at `attempt` with `fuel`
attempts left: one sleep of `10 * 2 ^ attempt` between consecutive attempts
and none after the last. -/
def backoffs : Nat → Nat → List Nat
  | _, 0 => []
  | _, 1 => []
  | attempt, f + 2 => 10 * 2 ^ attempt :: backoffs (attempt + 1) (f + 1)

/-! ## Lemmas about the path model -/

/-- `with_suffix` always produces the suffix-stripped name followed by the new
suffix. -/
theorem pyWithSuffix_eq (name suf : List Char) :
    pyWithSuffix name suf = pyStem name ++ suf := by
  unfold pyWithSuffix pyStem
  split
  · rename_i h
    rw [h]
    simp
  · rfl

/-- The Python suffix of a nonempty name is strictly shorter than the name. -/
theorem pySuffix_length_lt (s : List Char) (hs : s ≠ []) :
    (pySuffix s).length < s.length := by
  have hlen : 0 < s.length := List.length_pos.mpr hs
  cases h : lastDotIdx s with
  | none => simpa [pySuffix, h] using hlen
  | some i =>
    by_cases hc : 0 < i ∧ i + 1 < s.length
    · simp only [pySuffix, h, if_pos hc, List.length_drop]
      omega
    · simpa [pySuffix, h, hc] using hlen

/-- Stripping the suffix of a nonempty name leaves a nonempty name. -/
theorem pyStem_ne_nil (s : List Char) (hs : s ≠ []) : pyStem s ≠ [] := by
  have h1 := pySuffix_length_lt s hs
  unfold pyStem
  intro hcon
  have h2 := congrArg List.length hcon
  simp only [List.length_take, List.length_nil] at h2
  omega

/-- The last dot of `t ++ ".tmp"` is the dot of `".tmp"`, at index `t.length`. -/
theorem lastDotIdx_append_tmp (t : List Char) :
    lastDotIdx (t ++ tmpSuffix) = some t.length := by
  induction t with
  | nil => rfl
  | cons c t ih => simp [lastDotIdx, ih]

/-- Appending `".tmp"` to a nonempty name yields a name whose Python suffix is
exactly `".tmp"`. -/
theorem pySuffix_append_tmp (t : List Char) (ht : t ≠ []) :
    pySuffix (t ++ tmpSuffix) = tmpSuffix := by
  have h0 : 0 < t.length := List.length_pos.mpr ht
  have hlen : (t ++ tmpSuffix).length = t.length + 4 := by simp [tmpSuffix]
  unfold pySuffix
  rw [lastDotIdx_append_tmp]
  show (if 0 < t.length ∧ t.length + 1 < (t ++ tmpSuffix).length
        then (t ++ tmpSuffix).drop t.length else []) = tmpSuffix
  rw [if_pos ⟨h0, by rw [hlen]; omega⟩]
  exact List.drop_left t tmpSuffix

/-- A string whose character list is empty is the empty string. -/
theorem strToList_nil (s : String) (h : s.toList = []) : s = "" := by
  cases s with
  | mk data =>
    simp only [String.toList] at h
    subst h
    rfl

/-- C1: the claim as stated is false.  `atomic_write` derives the staging path
with `with_suffix(".tmp")`, which replaces the final extension: the distinct
targets `cache/a.parquet` and `cache/a.json` share the staging path
`cache/a.tmp`, and the staging path of `cache/a.parquet` coincides with the
distinct target path `cache/a.tmp` itself. -/
theorem C1_counterexample :
    (pParquet ≠ pJson ∧ tempPath pParquet = tempPath pJson) ∧
    (pParquet ≠ pTmpTarget ∧ tempPath pParquet = pTmpTarget) := by
  decide

/-- C1 (amended): staging paths of two targets are distinct when the targets
differ in parent directory or in their names with the final suffix stripped,
and a target's staging path never equals another target path whose own final
suffix is not `".tmp"`.  Targets in the same directory whose names differ only
in their final suffix do collide. -/
theorem C1_staging_amended (p q : FsPath) (hp : p.name ≠ "")
    (hd : p.parent ≠ q.parent ∨ pyStem p.name.toList ≠ pyStem q.name.toList)
    (hq : pySuffix q.name.toList ≠ tmpSuffix) :
    tempPath p ≠ tempPath q ∧ tempPath p ≠ q := by
  have hpl : p.name.toList ≠ [] := fun h => hp (strToList_nil _ h)
  constructor
  · intro h
    unfold tempPath at h
    rw [FsPath.mk.injEq] at h
    obtain ⟨hpar, hname⟩ := h
    have hdata : pyWithSuffix p.name.toList tmpSuffix = pyWithSuffix q.name.toList tmpSuffix :=
      congrArg String.data hname
    rw [pyWithSuffix_eq, pyWithSuffix_eq] at hdata
    have hstem := List.append_cancel_right hdata
    rcases hd with hd | hd
    · exact hd hpar
    · exact hd hstem
  · intro h
    unfold tempPath at h
    rw [FsPath.mk.injEq] at h
    obtain ⟨hpar, hname⟩ := h
    have hql : q.name.toList = pyStem p.name.toList ++ tmpSuffix := by
      rw [← hname, pyWithSuffix_eq]
      rfl
    have hsfx : pySuffix q.name.toList = tmpSuffix := by
      rw [hql]
      exact pySuffix_append_tmp _ (pyStem_ne_nil _ hpl)
    exact hq hsfx

/-- C1 witness: `cache/a.parquet` and `cache/b.parquet` differ in stem, so
their staging paths are distinct and neither staging path hits the other
target. -/
theorem C1_witness : tempPath pParquet ≠ tempPath pB ∧ tempPath pParquet ≠ pB :=
  C1_staging_amended pParquet pB (by decide) (Or.inr (by decide)) (by decide)

/-! ## Lemmas about the `atomic_write` model -/

/-- A failing attempt reports the mkdir error unchanged when mkdir fails. -/
theorem runAttempt_mkdir (env : AttemptEnv) (c : String) (st : WriteState) (e : PyError)
    (h : env.mkdirResult = some e) : runAttempt env c st = (st, some e) := by
  unfold runAttempt
  rw [h]

/-- The loop's stored `last_error` always equals the last entry of the list of
errors observed so far. -/
theorem awLoop_lastError (envs : Nat → AttemptEnv) (c : String) (n : Nat) :
    ∀ fuel attempt st le sl er md, le = er.getLast? →
      (awLoop envs c n fuel attempt st le sl er md).lastError =
        (awLoop envs c n fuel attempt st le sl er md).errors.getLast? := by
  intro fuel
  induction fuel with
  | zero =>
    intro attempt st le sl er md hinv
    exact hinv
  | succ fuel ih =>
    intro attempt st le sl er md hinv
    rcases hra : runAttempt (envs attempt) c st with ⟨st1, res⟩
    cases res with
    | none =>
      simp only [awLoop, hra]
      exact hinv
    | some e =>
      simp only [awLoop, hra]
      by_cases hg : isLockError e = true ∧ attempt < n - 1
      · rw [if_pos hg]
        exact ih _ _ _ _ _ _ (by rw [List.getLast?_concat])
      · rw [if_neg hg]
        show some e = (er ++ [e]).getLast?
        rw [List.getLast?_concat]

/-- The attempt counter only grows. -/
theorem awLoop_made_mono (envs : Nat → AttemptEnv) (c : String) (n : Nat) :
    ∀ fuel attempt st le sl er md,
      md ≤ (awLoop envs c n fuel attempt st le sl er md).attemptsMade := by
  intro fuel
  induction fuel with
  | zero =>
    intro attempt st le sl er md
    exact Nat.le_refl md
  | succ fuel ih =>
    intro attempt st le sl er md
    rcases hra : runAttempt (envs attempt) c st with ⟨st1, res⟩
    cases res with
    | none =>
      simp only [awLoop, hra]
      exact Nat.le_succ md
    | some e =>
      simp only [awLoop, hra]
      by_cases hg : isLockError e = true ∧ attempt < n - 1
      · rw [if_pos hg]
        exact Nat.le_trans (Nat.le_succ md) (ih _ _ _ _ _ _)
      · rw [if_neg hg]
        exact Nat.le_succ md

/-- With fuel remaining, the loop executes at least one more attempt. -/
theorem awLoop_made_lower (envs : Nat → AttemptEnv) (c : String) (n : Nat)
    (fuel attempt : Nat) (st : WriteState) (le : Option PyError) (sl : List Nat)
    (er : List PyError) (md : Nat) (hfuel : 1 ≤ fuel) :
    md + 1 ≤ (awLoop envs c n fuel attempt st le sl er md).attemptsMade := by
  cases fuel with
  | zero => exact absurd hfuel (by omega)
  | succ fuel =>
    rcases hra : runAttempt (envs attempt) c st with ⟨st1, res⟩
    cases res with
    | none =>
      simp only [awLoop, hra]
      exact Nat.le_refl _
    | some e =>
      simp only [awLoop, hra]
      by_cases hg : isLockError e = true ∧ attempt < n - 1
      · rw [if_pos hg]
        exact awLoop_made_mono envs c n fuel (attempt + 1) st1 _ _ _ _
      · rw [if_neg hg]

/-- The sleeps recorded so far are a prefix of the loop's final sleep list. -/
theorem awLoop_sleeps_prefix (envs : Nat → AttemptEnv) (c : String) (n : Nat) :
    ∀ fuel attempt st le sl er md,
      ∃ t, (awLoop envs c n fuel attempt st le sl er md).sleepsMs = sl ++ t := by
  intro fuel
  induction fuel with
  | zero =>
    intro attempt st le sl er md
    exact ⟨[], by simp [awLoop]⟩
  | succ fuel ih =>
    intro attempt st le sl er md
    rcases hra : runAttempt (envs attempt) c st with ⟨st1, res⟩
    cases res with
    | none =>
      simp only [awLoop, hra]
      exact ⟨[], by simp⟩
    | some e =>
      simp only [awLoop, hra]
      by_cases hg : isLockError e = true ∧ attempt < n - 1
      · rw [if_pos hg]
        obtain ⟨t, ht⟩ := ih (attempt + 1) st1 (some e) (sl ++ [10 * 2 ^ attempt]) (er ++ [e]) (md + 1)
        exact ⟨10 * 2 ^ attempt :: t, by rw [ht]; simp⟩
      · rw [if_neg hg]
        exact ⟨[], by simp⟩

/-- The observable statistics of `atomic_write` are those of its loop. -/
theorem atomic_write_stats (envs : Nat → AttemptEnv) (c : String) (n : Nat)
    (st0 : WriteState) (u : Bool) :
    (atomic_write envs c n st0 u).attemptsMade =
      (awLoop envs c n n 0 st0 none [] [] 0).attemptsMade ∧
    (atomic_write envs c n st0 u).sleepsMs = (awLoop envs c n n 0 st0 none [] [] 0).sleepsMs ∧
    (atomic_write envs c n st0 u).errors = (awLoop envs c n n 0 st0 none [] [] 0).errors := by
  simp only [atomic_write]
  split
  · exact ⟨rfl, rfl, rfl⟩
  · split <;> exact ⟨rfl, rfl, rfl⟩

/-- One unfolding of the loop when the attempt fails. -/
theorem awLoop_succ_err (envs : Nat → AttemptEnv) (c : String) (n fuel attempt : Nat)
    (st st1 : WriteState) (e : PyError) (le : Option PyError) (sl : List Nat)
    (er : List PyError) (md : Nat) (hra : runAttempt (envs attempt) c st = (st1, some e)) :
    awLoop envs c n (fuel + 1) attempt st le sl er md =
      if isLockError e ∧ attempt < n - 1 then
        awLoop envs c n fuel (attempt + 1) st1 (some e)
          (sl ++ [10 * 2 ^ attempt]) (er ++ [e]) (md + 1)
      else ⟨st1, false, some e, sl, er ++ [e], md + 1⟩ := by
  simp only [awLoop, hra]

/-- When every attempt fails with a lock-classified error, the loop runs all
its fuel, sleeping between consecutive attempts only, and ends unsuccessfully
holding some last error. -/
theorem awLoop_all_lock (envs : Nat → AttemptEnv) (c : String) (n : Nat)
    (hfail : ∀ i st, ∃ e, (runAttempt (envs i) c st).2 = some e ∧ isLockError e = true) :
    ∀ fuel attempt st le sl er md, fuel + attempt = n → 1 ≤ fuel →
      (awLoop envs c n fuel attempt st le sl er md).attemptsMade = md + fuel ∧
      (awLoop envs c n fuel attempt st le sl er md).sleepsMs = sl ++ backoffs attempt fuel ∧
      (awLoop envs c n fuel attempt st le sl er md).success = false ∧
      ∃ e, (awLoop envs c n fuel attempt st le sl er md).lastError = some e := by
  intro fuel
  induction fuel with
  | zero =>
    intro attempt st le sl er md _ h1
    exact absurd h1 (by omega)
  | succ f ih =>
    intro attempt st le sl er md hsum _
    obtain ⟨e, he, hl⟩ := hfail attempt st
    rcases hra : runAttempt (envs attempt) c st with ⟨st1, res⟩
    rw [hra] at he
    have hres : res = some e := he
    subst hres
    cases f with
    | zero =>
      have hguard : ¬(isLockError e = true ∧ attempt < n - 1) := by
        intro hcon
        have := hcon.2
        omega
      rw [awLoop_succ_err envs c n 0 attempt st st1 e le sl er md hra, if_neg hguard]
      refine ⟨rfl, ?_, rfl, e, rfl⟩
      rw [show backoffs attempt (0 + 1) = [] from rfl, List.append_nil]
    | succ f2 =>
      have hguard : isLockError e = true ∧ attempt < n - 1 := ⟨hl, by omega⟩
      rw [awLoop_succ_err envs c n (f2 + 1) attempt st st1 e le sl er md hra, if_pos hguard]
      obtain ⟨h1, h2, h3, h4⟩ := ih (attempt + 1) st1 (some e)
        (sl ++ [10 * 2 ^ attempt]) (er ++ [e]) (md + 1) (by omega) (by omega)
      refine ⟨by rw [h1]; omega, ?_, h3, h4⟩
      rw [h2, List.append_assoc]
      rfl

/-- C2: the claim as stated is false.  `path.parent.mkdir(...)` sits inside
the retry loop's `try` block, so a mkdir failure whose error is an `OSError`
with a lock-classified message ("Permission denied") IS retried: with the
first attempt's mkdir failing that way and the second attempt succeeding, the
call sleeps 10 ms, makes a second attempt, and returns successfully instead of
propagating the mkdir error. -/
theorem C2_counterexample :
    (atomic_write c2envs "payload" 3 st0Empty false).outcome = Outcome.ok ∧
    (atomic_write c2envs "payload" 3 st0Empty false).sleepsMs = [10] ∧
    (atomic_write c2envs "payload" 3 st0Empty false).attemptsMade = 2 := by
  decide

/-- C2 (amended): a failure while ensuring the parent directory exists is
handled by the per-attempt error policy.  When it is not lock-classified it
propagates immediately — one attempt, no backoff sleep, the error surfaced
unchanged; when it is lock-classified and attempts remain it is retried after
a 10 ms backoff like any other transient failure. -/
theorem C2_mkdir_amended (envs : Nat → AttemptEnv) (c : String) (n : Nat)
    (st0 : WriteState) (u : Bool) (e : PyError) :
    ((envs 0).mkdirResult = some e → isLockError e = false → 1 ≤ n →
      (atomic_write envs c n st0 u).outcome = Outcome.raised (Raised.pyErr e) ∧
      (atomic_write envs c n st0 u).attemptsMade = 1 ∧
      (atomic_write envs c n st0 u).sleepsMs = []) ∧
    ((envs 0).mkdirResult = some e → isLockError e = true → 2 ≤ n →
      2 ≤ (atomic_write envs c n st0 u).attemptsMade ∧
      (atomic_write envs c n st0 u).sleepsMs.head? = some 10) := by
  constructor
  · intro hm hnl hn
    obtain ⟨m, rfl⟩ : ∃ m, n = m + 1 := ⟨n - 1, by omega⟩
    have hra := runAttempt_mkdir (envs 0) c st0 e hm
    have hguard : ¬(isLockError e = true ∧ 0 < m + 1 - 1) := by
      intro hcon
      rw [hnl] at hcon
      exact absurd hcon.1 (by simp)
    have hloop : awLoop envs c (m + 1) (m + 1) 0 st0 none [] [] 0 =
        ⟨st0, false, some e, [], [] ++ [e], 0 + 1⟩ := by
      rw [awLoop_succ_err envs c (m + 1) m 0 st0 st0 e none [] [] 0 hra, if_neg hguard]
    simp [atomic_write, hloop]
  · intro hm hl hn
    obtain ⟨m, rfl⟩ : ∃ m, n = m + 1 + 1 := ⟨n - 2, by omega⟩
    have hra := runAttempt_mkdir (envs 0) c st0 e hm
    have hguard : isLockError e = true ∧ 0 < m + 1 + 1 - 1 := ⟨hl, by omega⟩
    have hstats := atomic_write_stats envs c (m + 1 + 1) st0 u
    have hloop : awLoop envs c (m + 1 + 1) (m + 1 + 1) 0 st0 none [] [] 0 =
        awLoop envs c (m + 1 + 1) (m + 1) (0 + 1) st0 (some e)
          ([] ++ [10 * 2 ^ 0]) ([] ++ [e]) (0 + 1) := by
      rw [awLoop_succ_err envs c (m + 1 + 1) (m + 1) 0 st0 st0 e none [] [] 0 hra,
        if_pos hguard]
    constructor
    · rw [hstats.1, hloop]
      have hlow := awLoop_made_lower envs c (m + 1 + 1) (m + 1) (0 + 1) st0 (some e)
        ([] ++ [10 * 2 ^ 0]) ([] ++ [e]) (0 + 1) (by omega)
      exact Nat.le_trans (by omega) hlow
    · rw [hstats.2.1, hloop]
      obtain ⟨t, ht⟩ := awLoop_sleeps_prefix envs c (m + 1 + 1) (m + 1) (0 + 1) st0 (some e)
        ([] ++ [10 * 2 ^ 0]) ([] ++ [e]) (0 + 1)
      rw [ht]
      simp

/-- C2 witness: a non-lock `OSError` from mkdir on the first attempt is fatal
at once — one attempt, no sleeps, the same error surfaced. -/
theorem C2_witness :
    (atomic_write (fun _ => ⟨some diskFullErr, none, none, none, none⟩) "x" 3 st0Empty
      false).outcome = Outcome.raised (Raised.pyErr diskFullErr) ∧
    (atomic_write (fun _ => ⟨some diskFullErr, none, none, none, none⟩) "x" 3 st0Empty
      false).attemptsMade = 1 ∧
    (atomic_write (fun _ => ⟨some diskFullErr, none, none, none, none⟩) "x" 3 st0Empty
      false).sleepsMs = [] :=
  (C2_mkdir_amended (fun _ => ⟨some diskFullErr, none, none, none, none⟩) "x" 3 st0Empty
    false diskFullErr).1 rfl (by decide) (by decide)

/-- C4: the claim as stated is false.  Against a persistently lock-failing
target with `max_retries = 3`, the call does make exactly 3 attempts, but
sleeps only between consecutive attempts: 10 ms and 20 ms, 30 ms in total —
not 10, 20 and 40 ms totalling 70 ms (the guard `attempt < max_retries - 1`
at `utils.py:132` skips the sleep after the final attempt). -/
theorem C4_counterexample :
    (atomic_write (fun _ => lockWriteEnv) "x" 3 st0Empty false).attemptsMade = 3 ∧
    (atomic_write (fun _ => lockWriteEnv) "x" 3 st0Empty false).sleepsMs = [10, 20] ∧
    (atomic_write (fun _ => lockWriteEnv) "x" 3 st0Empty false).sleepsMs ≠ [10, 20, 40] ∧
    (atomic_write (fun _ => lockWriteEnv) "x" 3 st0Empty false).sleepsMs.sum = 30 := by
  decide

/-- C4 (amended): for every target persistently failing with transient lock
errors, `atomic_write` with `max_retries = 3` makes exactly 3 attempts and
then fails, and the blocking backoff pauses follow `10ms * 2 ^ attempt` but
run only between consecutive attempts: 10 ms and 20 ms, totalling 30 ms. -/
theorem C4_retry_amended (envs : Nat → AttemptEnv) (c : String) (st0 : WriteState) (u : Bool)
    (hfail : ∀ i st, ∃ e, (runAttempt (envs i) c st).2 = some e ∧ isLockError e = true) :
    (atomic_write envs c 3 st0 u).attemptsMade = 3 ∧
    (atomic_write envs c 3 st0 u).sleepsMs = [10, 20] ∧
    (atomic_write envs c 3 st0 u).sleepsMs.sum = 30 ∧
    ∃ r, (atomic_write envs c 3 st0 u).outcome = Outcome.raised r := by
  have hstats := atomic_write_stats envs c 3 st0 u
  obtain ⟨h1, h2, h3, e, h4⟩ :=
    awLoop_all_lock envs c 3 hfail 3 0 st0 none [] [] 0 (by omega) (by omega)
  have hsleeps : (atomic_write envs c 3 st0 u).sleepsMs = [10, 20] := by
    rw [hstats.2.1, h2]
    decide
  refine ⟨by rw [hstats.1, h1], hsleeps, by rw [hsleeps]; decide, Raised.pyErr e, ?_⟩
  have hns : ¬((awLoop envs c 3 3 0 st0 none [] [] 0).success = true) := by
    rw [h3]
    simp
  simp only [atomic_write]
  rw [if_neg hns]
  simp only [h4]

/-- C4 witness: the constant lock-failing environment satisfies the
persistent-failure hypothesis, so the amended claim applies to it. -/
theorem C4_witness :
    (atomic_write (fun _ => lockWriteEnv) "w" 3 stOld true).attemptsMade = 3 ∧
    (atomic_write (fun _ => lockWriteEnv) "w" 3 stOld true).sleepsMs = [10, 20] ∧
    (atomic_write (fun _ => lockWriteEnv) "w" 3 stOld true).sleepsMs.sum = 30 ∧
    ∃ r, (atomic_write (fun _ => lockWriteEnv) "w" 3 stOld true).outcome = Outcome.raised r :=
  C4_retry_amended (fun _ => lockWriteEnv) "w" stOld true
    (by
      intro i st
      refine ⟨lockErr, ?_, by decide⟩
      cases hst : st.temp <;> simp [runAttempt, cleanupStale, lockWriteEnv, hst])

/-- C5: a failing `atomic_write` surfaces exactly the last error observed in
the attempt loop (`raise last_error` at `utils.py:154`; `RuntimeError` only
when no attempt ever ran), and the pre-raise best-effort staging cleanup at
`utils.py:148-152` never changes which error propagates, even when that
cleanup itself fails. -/
theorem C5_last_error_propagates (envs : Nat → AttemptEnv) (c : String) (n : Nat)
    (st0 : WriteState) (u : Bool) :
    (∀ e, (atomic_write envs c n st0 u).outcome = Outcome.raised (Raised.pyErr e) →
      (atomic_write envs c n st0 u).errors.getLast? = some e) ∧
    ((atomic_write envs c n st0 u).outcome = Outcome.raised Raised.runtimeError →
      (atomic_write envs c n st0 u).errors = []) ∧
    (atomic_write envs c n st0 true).outcome = (atomic_write envs c n st0 false).outcome := by
  have hlast := awLoop_lastError envs c n n 0 st0 none [] [] 0 rfl
  have herr : (atomic_write envs c n st0 u).errors =
      (awLoop envs c n n 0 st0 none [] [] 0).errors :=
    (atomic_write_stats envs c n st0 u).2.2
  have houtcome : ∀ v : Bool, (atomic_write envs c n st0 v).outcome =
      match (awLoop envs c n n 0 st0 none [] [] 0).success,
            (awLoop envs c n n 0 st0 none [] [] 0).lastError with
      | true, _ => Outcome.ok
      | false, some e => Outcome.raised (Raised.pyErr e)
      | false, none => Outcome.raised Raised.runtimeError := by
    intro v
    simp only [atomic_write]
    by_cases hs : (awLoop envs c n n 0 st0 none [] [] 0).success = true
    · rw [if_pos hs, hs]
    · have hs2 : (awLoop envs c n n 0 st0 none [] [] 0).success = false := by
        revert hs
        cases (awLoop envs c n n 0 st0 none [] [] 0).success <;> simp
      rw [if_neg hs, hs2]
      cases hle : (awLoop envs c n n 0 st0 none [] [] 0).lastError <;> simp only [hle]
  refine ⟨?_, ?_, by rw [houtcome true, houtcome false]⟩
  · intro e h
    rw [houtcome u] at h
    rw [herr, ← hlast]
    revert h
    cases hs : (awLoop envs c n n 0 st0 none [] [] 0).success <;>
      cases hle : (awLoop envs c n n 0 st0 none [] [] 0).lastError <;> intro h
    · exact Outcome.noConfusion h (fun h2 => Raised.noConfusion h2)
    · rw [Raised.pyErr.inj (Outcome.raised.inj h)]
    · exact Outcome.noConfusion h
    · exact Outcome.noConfusion h
  · intro h
    rw [houtcome u] at h
    rw [herr]
    revert h
    cases hs : (awLoop envs c n n 0 st0 none [] [] 0).success <;>
      cases hle : (awLoop envs c n n 0 st0 none [] [] 0).lastError <;> intro h
    · have h0 : (awLoop envs c n n 0 st0 none [] [] 0).errors.getLast? = none := by
        rw [← hlast, hle]
      exact List.getLast?_eq_none_iff.mp h0
    · exact absurd (Outcome.raised.inj h) (fun h2 => Raised.noConfusion h2)
    · exact Outcome.noConfusion h
    · exact Outcome.noConfusion h

/-- C5 witness: with every attempt failing non-transiently and the final
cleanup itself failing, the surfaced error is still the last observed one and
the outcome is unchanged by the cleanup failure. -/
theorem C5_witness :
    (atomic_write (fun _ => diskFullEnv) "x" 3 st0Empty true).errors.getLast? =
      some diskFullErr ∧
    (atomic_write (fun _ => diskFullEnv) "x" 3 st0Empty true).outcome =
      (atomic_write (fun _ => diskFullEnv) "x" 3 st0Empty false).outcome :=
  ⟨(C5_last_error_propagates (fun _ => diskFullEnv) "x" 3 st0Empty true).1 diskFullErr
      (by decide),
   (C5_last_error_propagates (fun _ => diskFullEnv) "x" 3 st0Empty true).2.2⟩

/-! ## Claims about the extractors -/

/-- The condition loop returns the first condition, in list order, whose
subject is a column reference, skipping the others. -/
theorem loopConditions_eq_findSome (l : List SqlExpr) :
    loopConditions l = l.findSome? subjectColumn := by
  induction l with
  | nil => rfl
  | cons c rest ih =>
    rw [loopConditions, List.findSome?_cons]
    cases subjectColumn c
    · exact ih
    · rfl

/-- C6: both extractors are total.  Any parse failure inside
`extract_partition_column` is normalized to `none` by the handler at
`utils.py:82`, each function returns either a string or nothing, and the
malformed query `SELEC * FRM` makes `extract_sql_url` return `none` rather
than erring. -/
theorem C6_extractors_total (parse : String → Except String SqlExpr) (sql e : String)
    (he : parse sql = Except.error e) :
    extract_partition_column parse sql = none ∧
    (∀ (p2 : String → Except String SqlExpr) (s2 : String),
      extract_partition_column p2 s2 = none ∨
        ∃ r, extract_partition_column p2 s2 = some r) ∧
    (∀ s2 : String, extract_sql_url s2 = none ∨ ∃ r, extract_sql_url s2 = some r) ∧
    extract_sql_url malformedSql = none := by
  refine ⟨?_, ?_, ?_, by decide⟩
  · rw [extract_partition_column, he]
  · intro p2 s2
    cases h : extract_partition_column p2 s2
    · exact Or.inl rfl
    · exact Or.inr ⟨_, rfl⟩
  · intro s2
    cases h : extract_sql_url s2
    · exact Or.inl rfl
    · exact Or.inr ⟨_, rfl⟩

/-- C6 witness: a parser failing on the malformed query yields `none` from
`extract_partition_column`, and `extract_sql_url` also returns `none` on it. -/
theorem C6_witness :
    extract_partition_column (fun _ => Except.error "ParseError") malformedSql = none ∧
    extract_sql_url malformedSql = none :=
  ⟨(C6_extractors_total (fun _ => Except.error "ParseError") malformedSql "ParseError"
      rfl).1,
   (C6_extractors_total (fun _ => Except.error "ParseError") malformedSql "ParseError"
      rfl).2.2.2⟩

/-- C7: the claim as stated is false.  sqlglot's `find` / `find_all` default
to a breadth-first walk, so the predicates of a WHERE clause are scanned
shallowest first, not in the written left-to-right order: on the parse tree
of `SELECT * FROM t WHERE a = 1 AND b = 2 AND c = 3` — a left-associated
`AND` chain whose last conjunct is the shallowest equality —
`extract_partition_column` returns `c`, not the first-written column `a`. -/
theorem C7_counterexample :
    extract_partition_column (fun _ => Except.ok exampleChainAnd) chainSql = some "c" ∧
    extract_partition_column (fun _ => Except.ok exampleChainAnd) chainSql ≠ some "a" := by
  decide

/-- C7 (amended): on a successful parse, `extract_partition_column` returns
the unqualified name from the first `EQ` / `In` node of the WHERE clause in
sqlglot's breadth-first walk order — shallowest predicates first, left to
right within one depth — skipping predicates whose subject is not a column
reference, and `none` without a WHERE clause.  `t.id = 1 AND status = 2`
still yields `id` (both predicates share one depth; first match,
unqualified); the chain `a = 1 AND b = 2 AND c = 3` yields `c`;
`id IN (1,2,3)` yields `id`; a `LOWER(name) = 'x'` predicate is skipped; no
WHERE clause yields `none`. -/
theorem C7_partition_column_first_match (parse : String → Except String SqlExpr)
    (sql : String) (parsed : SqlExpr) (hok : parse sql = Except.ok parsed) :
    extract_partition_column parse sql =
      (match (bfsList parsed).find? isWhereB with
       | none => none
       | some w => ((bfsList w).filter isEqInB).findSome? subjectColumn) ∧
    extract_partition_column (fun _ => Except.ok exampleQualifiedAnd) exSqlQualifiedAnd =
      some "id" ∧
    extract_partition_column (fun _ => Except.ok exampleChainAnd) chainSql = some "c" ∧
    extract_partition_column (fun _ => Except.ok exampleInList) "q" = some "id" ∧
    extract_partition_column (fun _ => Except.ok exampleFuncSubject) "q" = none ∧
    extract_partition_column (fun _ => Except.ok exampleNoWhere) "q" = none := by
  refine ⟨?_, by decide, by decide, by decide, by decide, by decide⟩
  simp only [extract_partition_column, hok]
  unfold extract_partition_column_parsed
  cases hw : (bfsList parsed).find? isWhereB
  · rfl
  · exact loopConditions_eq_findSome _

/-- C7 witness: the specification formula applied to the parse tree of the
qualified-AND example. -/
theorem C7_witness :
    extract_partition_column (fun _ => Except.ok exampleQualifiedAnd) exSqlQualifiedAnd =
      (match (bfsList exampleQualifiedAnd).find? isWhereB with
       | none => none
       | some w => ((bfsList w).filter isEqInB).findSome? subjectColumn) :=
  (C7_partition_column_first_match (fun _ => Except.ok exampleQualifiedAnd)
    exSqlQualifiedAnd exampleQualifiedAnd rfl).1

/-- `re.search` semantics of the scanner: a result is returned exactly when
some start position matches and every earlier start position does not. -/
theorem searchFrom_iff (cs content : List Char) :
    searchFrom cs = some content ↔
      ∃ i, tryMatchAt (cs.drop i) = some content ∧
        ∀ j < i, tryMatchAt (cs.drop j) = none := by
  induction cs with
  | nil =>
    constructor
    · intro h
      exact absurd h (by simp [searchFrom])
    · rintro ⟨i, hi, _⟩
      rw [List.drop_nil] at hi
      exact absurd hi (by simp [tryMatchAt])
  | cons c rest ih =>
    cases h : tryMatchAt (c :: rest) with
    | some r =>
      have hs : searchFrom (c :: rest) = some r := by simp only [searchFrom, h]
      rw [hs]
      constructor
      · intro heq
        exact ⟨0, by rw [List.drop_zero, h, heq], by omega⟩
      · rintro ⟨i, hi, hj⟩
        cases i with
        | zero =>
          rw [List.drop_zero, h] at hi
          exact hi
        | succ i2 =>
          have h0 := hj 0 (by omega)
          rw [List.drop_zero, h] at h0
          exact absurd h0 (by simp)
    | none =>
      have hs : searchFrom (c :: rest) = searchFrom rest := by simp only [searchFrom, h]
      rw [hs, ih]
      constructor
      · rintro ⟨i, hi, hj⟩
        refine ⟨i + 1, ?_, ?_⟩
        · rw [List.drop_succ_cons]
          exact hi
        · intro j hjlt
          cases j with
          | zero =>
            rw [List.drop_zero]
            exact h
          | succ j2 =>
            rw [List.drop_succ_cons]
            exact hj j2 (by omega)
      · rintro ⟨i, hi, hj⟩
        cases i with
        | zero =>
          rw [List.drop_zero, h] at hi
          exact absurd hi (by simp)
        | succ i2 =>
          refine ⟨i2, ?_, ?_⟩
          · rw [List.drop_succ_cons] at hi
            exact hi
          · intro j hjlt
            have h2 := hj (j + 1) (by omega)
            rw [List.drop_succ_cons] at h2
            exact h2

/-- A successful anchored match decomposes the text as the spec describes:
case-insensitive `FROM`, nonempty whitespace, then a nonempty quoted literal
returned verbatim. -/
theorem tryMatchAt_decomp (cs content : List Char) (h : tryMatchAt cs = some content) :
    fromPatternDecomp cs content := by
  rcases cs with _ | ⟨c1, _ | ⟨c2, _ | ⟨c3, _ | ⟨c4, rest⟩⟩⟩⟩
  · exact absurd h (by simp [tryMatchAt])
  · exact absurd h (by simp [tryMatchAt])
  · exact absurd h (by simp [tryMatchAt])
  · exact absurd h (by simp [tryMatchAt])
  simp only [tryMatchAt] at h
  split at h
  case isFalse => exact absurd h (by simp)
  case isTrue hci =>
    simp only [matchAfterFrom] at h
    split at h
    case isTrue => exact absurd h (by simp)
    case isFalse hws =>
      split at h
      case h_2 => exact absurd h (by simp)
      case h_1 cq r2 heqA =>
        split at h
        case isFalse => exact absurd h (by simp)
        case isTrue hq =>
          simp only [matchQuoted] at h
          split at h
          case isTrue => exact absurd h (by simp)
          case isFalse hce =>
            split at h
            case h_2 => exact absurd h (by simp)
            case h_1 cq2 tail heq3 =>
              split at h
              case isFalse => exact absurd h (by simp)
              case isTrue hq2 =>
                have hcontent : content = r2.takeWhile (fun c => !(c == sqChar)) :=
                  (Option.some.inj h).symm
                have hcq : cq = sqChar := by simpa using hq
                have hcq2 : cq2 = sqChar := by simpa using hq2
                have hrest : rest = rest.takeWhile isPySpace ++ (cq :: r2) := by
                  rw [← heqA, List.takeWhile_append_dropWhile]
                have hr2 : r2 = content ++ (cq2 :: tail) := by
                  rw [hcontent, ← heq3, List.takeWhile_append_dropWhile]
                set ws := List.takeWhile isPySpace rest with hwsg
                refine ⟨c1, c2, c3, c4, ws, tail, ?_, ?_, ?_, ?_, ?_, ?_⟩
                · rw [hcq] at hrest
                  rw [hrest, hr2, hcq2]
                · simp only [Bool.and_eq_true, Bool.or_eq_true, beq_iff_eq] at hci
                  obtain ⟨⟨⟨hA, hB⟩, hC⟩, hD⟩ := hci
                  exact ⟨hA, hB, hC, hD⟩
                · intro hnil
                  apply hws
                  rw [hnil]
                  rfl
                · intro ch hch
                  rw [hwsg] at hch
                  exact List.mem_takeWhile_imp hch
                · rw [hcontent]
                  intro hnil
                  apply hce
                  rw [hnil]
                  rfl
                · intro ch hch
                  rw [hcontent] at hch
                  have h2 := List.mem_takeWhile_imp hch
                  simpa using h2

/-- C8: `extract_sql_url` returns exactly the quoted literal of the first
(leftmost) occurrence of `FROM` (case-insensitive) followed by one or more
whitespace characters — newlines and indentation included — and a
single-quoted literal: a result is returned iff some start position matches
with every earlier position failing, a matching position decomposes according
to the pattern with the contents returned verbatim, the spec's two URL
examples extract, only the first of two quoted FROM clauses is returned, a
no-break space counts as whitespace, and text with no such pattern yields
`none`. -/
theorem C8_sql_url_first_pattern (s : String) (content : List Char) :
    (extract_sql_url s = some (String.mk content) ↔
      ∃ i, tryMatchAt (s.toList.drop i) = some content ∧
        ∀ j < i, tryMatchAt (s.toList.drop j) = none) ∧
    (tryMatchAt s.toList = some content → fromPatternDecomp s.toList content) ∧
    extract_sql_url exUrlBasic = some "https://example.com/file.parquet" ∧
    extract_sql_url exUrlNewline = some "https://x/y.parquet" ∧
    extract_sql_url exUrlTwoFrom = some "a" ∧
    extract_sql_url exUrlNbsp = some "u" ∧
    extract_sql_url "SELECT k FROM tbl WHERE x = 1" = none := by
  refine ⟨?_, tryMatchAt_decomp s.toList content, by decide, by decide, by decide, by decide,
    by decide⟩
  have hiff : extract_sql_url s = some (String.mk content) ↔
      searchFrom s.toList = some content := by
    cases hs : searchFrom s.toList with
    | none =>
      simp only [extract_sql_url, hs]
      constructor
      · intro hcon
        exact absurd hcon (by simp)
      · intro hcon
        exact absurd hcon (by simp)
    | some l2 =>
      simp only [extract_sql_url, hs]
      constructor
      · intro heq
        exact congrArg (fun t => some (String.data t)) (Option.some.inj heq)
      · intro heq
        rw [Option.some.inj heq]
  rw [hiff]
  exact searchFrom_iff s.toList content

/-- C8 witness: the anchored match on `FROM 'u'` produces the decomposition
the pattern describes. -/
theorem C8_witness : fromPatternDecomp exFromBasic.toList ['u'] :=
  (C8_sql_url_first_pattern exFromBasic ['u']).2.1 (by decide)

/-- C10: the pattern imposes no word boundary before `FROM`: in `tblFROM 'u'`
the letters `FROM` are the tail of the identifier `tblFROM`, yet the quoted
literal is still extracted rather than `none` being returned. -/
theorem C10_no_word_boundary : extract_sql_url exUrlTailWord = some "u" := by
  decide

/-! ## Claims about the key derivation -/

/-- Each word renders as exactly eight characters. -/
theorem wordHex_length (w : Nat) : (wordHex w).length = 8 := rfl

/-- A rendered hex digit is in the lowercase hex alphabet. -/
theorem hexChar_mem (n : Nat) : hexChar n ∈ hexDigits := by
  have h : n % 16 < 16 := Nat.mod_lt _ (by norm_num)
  have hall : ∀ m, m < 16 →
      (if m < 10 then Char.ofNat (48 + m) else Char.ofNat (87 + m)) ∈ hexDigits := by decide
  exact hall (n % 16) h

/-- Every character of a rendered word is in the lowercase hex alphabet. -/
theorem mem_wordHex (ch : Char) (w : Nat) (h : ch ∈ wordHex w) : ch ∈ hexDigits := by
  simp only [wordHex, List.mem_cons, List.not_mem_nil, or_false] at h
  rcases h with h | h | h | h | h | h | h | h <;> rw [h] <;> exact hexChar_mem _

/-- A SHA-256 hex digest has 64 characters. -/
theorem sha256hex_length (msg : List Nat) : (sha256hex msg).length = 64 := by
  show (shaDigestChars (sha256words msg)).length = 64
  simp [shaDigestChars, List.length_append, wordHex_length]

/-- Every character of a SHA-256 hex digest is a lowercase hex digit. -/
theorem mem_sha256hex (msg : List Nat) (ch : Char) (h : ch ∈ (sha256hex msg).toList) :
    ch ∈ hexDigits := by
  have h2 : ch ∈ shaDigestChars (sha256words msg) := h
  simp only [shaDigestChars, List.mem_append] at h2
  rcases h2 with ((((((h2 | h2) | h2) | h2) | h2) | h2) | h2) | h2 <;>
    exact mem_wordHex ch _ h2

/-- C9: `get_url_hash` and `get_query_hash` are deterministic pure functions —
equal inputs give equal keys — and their output always has exactly 64
characters drawn from the lowercase hex alphabet, regardless of input. -/
theorem C9_hash_format (u v k1 k2 : String) (c1 c2 : Option (List String))
    (hu : u = v) (hk : k1 = k2) (hc : c1 = c2) :
    get_url_hash u = get_url_hash v ∧
    get_query_hash k1 c1 = get_query_hash k2 c2 ∧
    (get_url_hash u).length = 64 ∧
    (get_query_hash k1 c1).length = 64 ∧
    (∀ ch ∈ (get_url_hash u).toList, ch ∈ hexDigits) ∧
    (∀ ch ∈ (get_query_hash k1 c1).toList, ch ∈ hexDigits) := by
  subst hu
  subst hk
  subst hc
  refine ⟨rfl, rfl, sha256hex_length _, sha256hex_length _, ?_, ?_⟩
  · intro ch h
    exact mem_sha256hex _ ch h
  · intro ch h
    exact mem_sha256hex _ ch h

/-- C9 witness: the guarantees instantiated at concrete inputs. -/
theorem C9_witness :
    get_url_hash "a" = get_url_hash "a" ∧
    get_query_hash "k" (some ["c"]) = get_query_hash "k" (some ["c"]) ∧
    (get_url_hash "a").length = 64 ∧
    (get_query_hash "k" (some ["c"])).length = 64 ∧
    (∀ ch ∈ (get_url_hash "a").toList, ch ∈ hexDigits) ∧
    (∀ ch ∈ (get_query_hash "k" (some ["c"])).toList, ch ∈ hexDigits) :=
  C9_hash_format "a" "a" "k" "k" (some ["c"]) (some ["c"]) rfl rfl rfl
